import Mathlib

/-!
Verification of the motion-based trim pipeline of the volleyball-analytics
repository.  The TypeScript sources are shallowly embedded: JavaScript
numbers on which the code only performs exact arithmetic are modelled by `ℚ`,
byte buffers by `List ℕ`, and fallible operations by `Except`.
-/

namespace VolleyballAnalytics

/-- `TimeRange` from `services/motionDetector.ts` (`{ start, end }` in seconds).
The source field `end` is a reserved word in Lean, hence the escaped name. -/
structure TimeRange where
  start : ℚ
  «end» : ℚ
deriving DecidableEq, Repr

/-! ### Motion scorer (`computeMotionScores`, motionDetector.ts lines 54-69) -/

/-- Inner loop of `computeMotionScores`: total absolute pixel difference
between frame `i` and frame `i-1` (`diff` in the source). -/
def frameDiff (rawData : List ℕ) (frameSize i : ℕ) : ℕ :=
  ((List.range frameSize).map
    (fun j => ((rawData.getD (i * frameSize + j) 0 : ℤ)
              - (rawData.getD ((i - 1) * frameSize + j) 0 : ℤ)).natAbs)).sum

/-- `computeMotionScores(rawData, frameSize)`: `numFrames = floor(len / frameSize)`
scores, index 0 stays at the fill value `0`, index `i ≥ 1` is
`diff / frameSize / 255`. -/
def computeMotionScores (rawData : List ℕ) (frameSize : ℕ) : List ℚ :=
  (List.range (rawData.length / frameSize)).map
    (fun i => if i = 0 then 0 else (frameDiff rawData frameSize i : ℚ) / frameSize / 255)

/-! ### Smoother (`smoothScores`, motionDetector.ts lines 74-84) -/

/-- `smoothScores(scores, windowSize)`.  `windowSize ≤ 1` returns
`scores.slice()`, a fresh array with the same elements (aliasing is not
observable in this value-level embedding).  Otherwise each index is mapped to
the average over the clamped window; `ℕ` subtraction models
`Math.max(0, i - half)`. -/
def smoothScores (scores : List ℚ) (windowSize : ℕ) : List ℚ :=
  if windowSize ≤ 1 then scores
  else
    let half := windowSize / 2
    (List.range scores.length).map (fun i =>
      let lo := i - half
      let hi := min scores.length (i + half + 1)
      (((List.range' lo (hi - lo)).map (fun k => scores.getD k 0)).sum) / ((hi - lo : ℕ) : ℚ))

/-! ### Segmenter (`scoresToSegments`, motionDetector.ts lines 91-138) -/

/-- Thresholding step (`smoothed.map(s => s >= threshold)`). -/
def activeOf (smoothed : List ℚ) (threshold : ℚ) : List Bool :=
  smoothed.map (fun s => threshold ≤ s)

/-- The raw-segment collection loop of `scoresToSegments`: walks the `active`
array carrying the index `i` and the open segment start `segStart`
(`none` = `null`).  A segment still open at the end closes at `duration`. -/
def rawLoop (sampleFps duration : ℚ) : List Bool → ℕ → Option ℚ → List TimeRange
  | [], _, none => []
  | [], _, some segStart => [⟨segStart, duration⟩]
  | true :: rest, i, none => rawLoop sampleFps duration rest (i + 1) (some ((i : ℚ) / sampleFps))
  | true :: rest, i, some segStart => rawLoop sampleFps duration rest (i + 1) (some segStart)
  | false :: rest, i, none => rawLoop sampleFps duration rest (i + 1) none
  | false :: rest, i, some segStart =>
      ⟨segStart, (i : ℚ) / sampleFps⟩ :: rawLoop sampleFps duration rest (i + 1) none

/-- The `raw` list of `scoresToSegments`: thresholding followed by the
collection loop started at index 0 with no open segment. -/
def rawRanges (smoothed : List ℚ) (sampleFps threshold duration : ℚ) : List TimeRange :=
  rawLoop sampleFps duration (activeOf smoothed threshold) 0 none

/-- The merge loop of `scoresToSegments`, with the mutable last element of
`merged` carried as `cur`: an overlapping or adjacent segment extends
`cur.end` to the maximum, otherwise `cur` is emitted. -/
def mergeLoop : TimeRange → List TimeRange → List TimeRange
  | cur, [] => [cur]
  | cur, seg :: rest =>
      if seg.start ≤ cur.«end» then mergeLoop ⟨cur.start, max cur.«end» seg.«end»⟩ rest
      else cur :: mergeLoop seg rest

/-- Merge step of `scoresToSegments` (`merged` starts empty, so an empty
input yields an empty output). -/
def mergeRanges : List TimeRange → List TimeRange
  | [] => []
  | seg :: rest => mergeLoop seg rest

/-- `scoresToSegments(smoothed, sampleFps, threshold, minSegmentLength,
preRoll, postRoll, duration)`: threshold, collect raw runs, drop short
segments, pad, clamp, merge. -/
def scoresToSegments (smoothed : List ℚ) (sampleFps threshold minSegmentLength preRoll postRoll duration : ℚ) : List TimeRange :=
  let raw := rawRanges smoothed sampleFps threshold duration
  let filtered := raw.filter (fun s => minSegmentLength ≤ s.«end» - s.start)
  let padded := filtered.map (fun s =>
    ⟨max 0 (s.start - preRoll), min duration (s.«end» + postRoll)⟩)
  mergeRanges padded

/-! ### C2 : motion scorer functional correctness -/

theorem computeMotionScores_length (rawData : List ℕ) (frameSize : ℕ) :
    (computeMotionScores rawData frameSize).length = rawData.length / frameSize := by
  simp [computeMotionScores]

theorem computeMotionScores_getD (rawData : List ℕ) (frameSize i : ℕ)
    (hi : i < rawData.length / frameSize) :
    (computeMotionScores rawData frameSize).getD i 0 =
      if i = 0 then 0 else (frameDiff rawData frameSize i : ℚ) / frameSize / 255 := by
  rw [List.getD_eq_getElem?_getD]
  rw [List.getElem?_eq_getElem (by simpa [computeMotionScores_length])]
  simp [computeMotionScores]

theorem getD_le_of_forall_le (l : List ℕ) (hb : ∀ b ∈ l, b ≤ 255) (k : ℕ) :
    l.getD k 0 ≤ 255 := by
  rw [List.getD_eq_getElem?_getD, ← List.get?_eq_getElem?]
  cases h : l.get? k with
  | none => simp
  | some x => simpa using hb x (List.get?_mem h)

theorem frameDiff_le (rawData : List ℕ) (frameSize i : ℕ)
    (hb : ∀ b ∈ rawData, b ≤ 255) :
    frameDiff rawData frameSize i ≤ 255 * frameSize := by
  unfold frameDiff
  calc ((List.range frameSize).map
        (fun j => ((rawData.getD (i * frameSize + j) 0 : ℤ)
                 - (rawData.getD ((i - 1) * frameSize + j) 0 : ℤ)).natAbs)).sum
      ≤ ((List.range frameSize).map (fun _ => 255)).sum := by
        apply List.sum_le_sum
        intro j _
        have h1 := getD_le_of_forall_le rawData hb (i * frameSize + j)
        have h2 := getD_le_of_forall_le rawData hb ((i - 1) * frameSize + j)
        omega
    _ = 255 * frameSize := by simp [List.map_const', mul_comm]

/-- C2: `computeMotionScores` returns `floor(|buf|/F)` scores; the first is 0;
for `i ≥ 1` the i-th equals `Σ_j |buf[iF+j] − buf[(i−1)F+j]| / F / 255`, which
lies in `[0,1]`; an empty buffer yields `[]` and a single frame yields `[0]`. -/
theorem computeMotionScores_spec (rawData : List ℕ) (frameSize : ℕ)
    (hF : 0 < frameSize) (hb : ∀ b ∈ rawData, b ≤ 255) :
    (computeMotionScores rawData frameSize).length = rawData.length / frameSize ∧
    (0 < rawData.length / frameSize → (computeMotionScores rawData frameSize).getD 0 0 = 0) ∧
    (∀ i, 1 ≤ i → i < rawData.length / frameSize →
      (computeMotionScores rawData frameSize).getD i 0 =
        (((List.range frameSize).map
          (fun j => ((rawData.getD (i * frameSize + j) 0 : ℤ)
                   - (rawData.getD ((i - 1) * frameSize + j) 0 : ℤ)).natAbs)).sum : ℚ)
          / frameSize / 255 ∧
      0 ≤ (computeMotionScores rawData frameSize).getD i 0 ∧
      (computeMotionScores rawData frameSize).getD i 0 ≤ 1) ∧
    (rawData = [] → computeMotionScores rawData frameSize = []) ∧
    (rawData.length / frameSize = 1 → computeMotionScores rawData frameSize = [0]) := by
  refine ⟨computeMotionScores_length rawData frameSize, ?_, ?_, ?_, ?_⟩
  · intro h
    rw [computeMotionScores_getD rawData frameSize 0 h]
    simp
  · intro i h1 h2
    have hval := computeMotionScores_getD rawData frameSize i h2
    rw [if_neg (by omega)] at hval
    refine ⟨hval, ?_, ?_⟩
    · rw [hval]
      positivity
    · rw [hval, div_div, div_le_one (by positivity)]
      have := frameDiff_le rawData frameSize i hb
      calc (frameDiff rawData frameSize i : ℚ) ≤ ((255 * frameSize : ℕ) : ℚ) := by
            exact_mod_cast this
        _ = (frameSize : ℚ) * 255 := by push_cast; ring
  · intro h
    subst h
    simp [computeMotionScores, Nat.zero_div]
  · intro h
    rw [computeMotionScores, h, show List.range 1 = [0] from rfl]
    simp

/-- C2 witness: buffer `[0,0,255,255]` with frame size 2 gives scores `[0, 1]`. -/
theorem computeMotionScores_spec_witness :
    (0 < 2 ∧ ∀ b ∈ [0, 0, 255, 255], b ≤ 255) ∧
    (computeMotionScores [0, 0, 255, 255] 2).length = 2 ∧
    (computeMotionScores [0, 0, 255, 255] 2).getD 1 0 ≤ 1 := by
  have h := computeMotionScores_spec [0, 0, 255, 255] 2 (by decide) (by decide)
  exact ⟨⟨by decide, by decide⟩, by simpa using h.1,
    ((h.2.2.1 1 (by decide) (by decide)).2.2)⟩

/-! ### C6 : smoother functional correctness -/

theorem sum_range'_eq_sum_Ico (lo n : ℕ) (f : ℕ → ℚ) :
    ((List.range' lo n).map f).sum = ∑ k in Finset.Ico lo (lo + n), f k := by
  rw [Finset.sum_Ico_eq_sum_range]
  simp [List.range'_eq_map_range, Function.comp, List.map_map]
  rfl

/-- C6: `smoothScores` is the identity (modulo array freshness, which a pure
embedding cannot distinguish) for `W ≤ 1`, preserves length, and for `W > 1`
returns at each index the arithmetic mean of the scores over
`[max(0, i−⌊W/2⌋), min(N, i+⌊W/2⌋+1))`, divided by the actual count of
elements included.  The source only uses `slice` and `map`, so the input
array is never mutated. -/
theorem smoothScores_spec (scores : List ℚ) (windowSize : ℕ) :
    (windowSize ≤ 1 → smoothScores scores windowSize = scores) ∧
    (smoothScores scores windowSize).length = scores.length ∧
    (1 < windowSize → ∀ i, i < scores.length →
      (smoothScores scores windowSize).getD i 0 =
        (∑ k in Finset.Ico (i - windowSize / 2) (min scores.length (i + windowSize / 2 + 1)),
            scores.getD k 0) /
          ((min scores.length (i + windowSize / 2 + 1) - (i - windowSize / 2) : ℕ) : ℚ)) := by
  refine ⟨fun h => by simp [smoothScores, h], ?_, ?_⟩
  · by_cases h : windowSize ≤ 1 <;> simp [smoothScores, h]
  · intro hW i hi
    rw [smoothScores, if_neg (by omega)]
    have hlen : i < (List.map (fun i =>
        (((List.range' (i - windowSize / 2)
            (min scores.length (i + windowSize / 2 + 1) - (i - windowSize / 2))).map
              (fun k => scores.getD k 0)).sum) /
          ((min scores.length (i + windowSize / 2 + 1) - (i - windowSize / 2) : ℕ) : ℚ))
        (List.range scores.length)).length := by simpa
    rw [List.getD_eq_getElem?_getD, List.getElem?_eq_getElem hlen]
    simp only [List.getElem_map, List.getElem_range, Option.getD_some]
    have hlo : i - windowSize / 2 ≤ min scores.length (i + windowSize / 2 + 1) := by omega
    rw [sum_range'_eq_sum_Ico, Nat.add_sub_cancel' hlo]

/-- C6 witness: `smoothScores [1, 2] 3` averages only the elements actually
inside the array: index 0 gets `(1+2)/2`, and `smoothScores [1, 2] 1 = [1, 2]`. -/
theorem smoothScores_spec_witness :
    (1 ≤ 1 ∧ smoothScores [(1 : ℚ), 2] 1 = [1, 2]) ∧
    (1 < 3 ∧ 0 < 2 ∧
      (smoothScores [(1 : ℚ), 2] 3).getD 0 0 =
        (∑ k in Finset.Ico 0 2, ([(1 : ℚ), 2]).getD k 0) / 2) := by
  have h := smoothScores_spec [(1 : ℚ), 2] 3
  have h1 := smoothScores_spec [(1 : ℚ), 2] 1
  refine ⟨⟨le_refl 1, h1.1 (le_refl 1)⟩, by norm_num, by norm_num, ?_⟩
  have := h.2.2 (by norm_num) 0 (by norm_num)
  simpa using this

/-! ### C1 : segmenter invariants -/

/-- Lower bound on the start of every range still to be produced by
`rawLoop`: the pending segment start if one is open, the current time
otherwise. -/
def rawLB (sampleFps : ℚ) (p : ℕ) : Option ℚ → ℚ
  | some segStart => segStart
  | none => (p : ℚ) / sampleFps

theorem rawLoop_spec (sampleFps duration : ℚ) (hfps : 0 < sampleFps) (len : ℕ)
    (hdur : (len : ℚ) / sampleFps ≤ duration) :
    ∀ (l : List Bool) (p : ℕ) (st : Option ℚ), p + l.length = len →
      (∀ s, st = some s → 0 ≤ s ∧ s < (p : ℚ) / sampleFps) →
      (∀ r ∈ rawLoop sampleFps duration l p st,
        rawLB sampleFps p st ≤ r.start ∧ 0 ≤ r.start ∧ r.start < r.«end» ∧ r.«end» ≤ duration) ∧
      List.Pairwise (fun a b : TimeRange => a.«end» < b.start)
        (rawLoop sampleFps duration l p st) := by
  intro l
  induction l with
  | nil =>
    intro p st hp hst
    cases st with
    | none => simp [rawLoop]
    | some s =>
      obtain ⟨hs0, hsp⟩ := hst s rfl
      have hp' : p = len := by simpa using hp
      subst hp'
      refine ⟨?_, by simp [rawLoop]⟩
      intro r hr
      simp only [rawLoop, List.mem_singleton] at hr
      subst hr
      exact ⟨le_refl s, hs0, lt_of_lt_of_le hsp hdur, le_refl duration⟩
  | cons a rest ih =>
    intro p st hp hst
    have hdiv : (p : ℚ) / sampleFps < ((p + 1 : ℕ) : ℚ) / sampleFps := by
      gcongr
      exact_mod_cast Nat.lt_succ_self p
    have hplen : p + 1 ≤ len := by simp at hp; omega
    have hple : (p : ℚ) / sampleFps ≤ duration := by
      refine le_trans ?_ hdur
      gcongr
      exact_mod_cast Nat.le_of_succ_le hplen
    cases a with
    | true =>
      cases st with
      | none =>
        have h := ih (p + 1) (some ((p : ℚ) / sampleFps))
          (by simp at hp ⊢; omega)
          (by rintro s rfl2
              simp only [Option.some.injEq] at rfl2
              subst rfl2
              exact ⟨div_nonneg (by positivity) (le_of_lt hfps), hdiv⟩)
        exact ⟨fun r hr => (h.1 r hr), h.2⟩
      | some s =>
        obtain ⟨hs0, hsp⟩ := hst s rfl
        have h := ih (p + 1) (some s)
          (by simp at hp ⊢; omega)
          (by rintro s' rfl2
              simp only [Option.some.injEq] at rfl2
              subst rfl2
              exact ⟨hs0, lt_trans hsp hdiv⟩)
        exact ⟨fun r hr => (h.1 r hr), h.2⟩
    | false =>
      cases st with
      | none =>
        have h := ih (p + 1) none (by simp at hp ⊢; omega) (by simp)
        refine ⟨fun r hr => ?_, h.2⟩
        obtain ⟨hlb, hrest⟩ := h.1 r hr
        exact ⟨le_trans (le_of_lt hdiv) hlb, hrest⟩
      | some s =>
        obtain ⟨hs0, hsp⟩ := hst s rfl
        have h := ih (p + 1) none (by simp at hp ⊢; omega) (by simp)
        constructor
        · intro r hr
          simp only [rawLoop, List.mem_cons] at hr
          rcases hr with rfl2 | hr
          · subst rfl2
            exact ⟨le_refl s, hs0, hsp, hple⟩
          · obtain ⟨hlb, hrest⟩ := h.1 r hr
            exact ⟨le_of_lt (lt_of_lt_of_le (lt_trans hsp hdiv) hlb), hrest⟩
        · show List.Pairwise _ (⟨s, (p : ℚ) / sampleFps⟩ :: rawLoop sampleFps duration rest (p + 1) none)
          refine List.pairwise_cons.mpr ⟨?_, h.2⟩
          intro r hr
          exact lt_of_lt_of_le hdiv (h.1 r hr).1

theorem rawRanges_spec (smoothed : List ℚ) (sampleFps threshold duration : ℚ)
    (hfps : 0 < sampleFps) (hlen : (smoothed.length : ℚ) / sampleFps ≤ duration) :
    (∀ r ∈ rawRanges smoothed sampleFps threshold duration,
      0 ≤ r.start ∧ r.start < r.«end» ∧ r.«end» ≤ duration) ∧
    List.Pairwise (fun a b : TimeRange => a.«end» < b.start)
      (rawRanges smoothed sampleFps threshold duration) := by
  have h := rawLoop_spec sampleFps duration hfps smoothed.length hlen
    (activeOf smoothed threshold) 0 none (by simp [activeOf]) (by simp)
  exact ⟨fun r hr => ((h.1 r hr).2), h.2⟩

theorem mergeLoop_spec (duration : ℚ) :
    ∀ (l : List TimeRange) (cur : TimeRange),
      (∀ r ∈ cur :: l, 0 ≤ r.start ∧ r.start < r.«end» ∧ r.«end» ≤ duration) →
      List.Pairwise (fun a b : TimeRange => a.start ≤ b.start) (cur :: l) →
      (∀ r ∈ mergeLoop cur l, cur.start ≤ r.start) ∧
      List.Pairwise (fun a b : TimeRange => a.«end» < b.start) (mergeLoop cur l) ∧
      (∀ r ∈ mergeLoop cur l,
        0 ≤ r.start ∧ r.start < r.«end» ∧ r.«end» ≤ duration) := by
  intro l
  induction l with
  | nil =>
    intro cur hb _
    refine ⟨by simp [mergeLoop], by simp [mergeLoop], ?_⟩
    intro r hr
    simp only [mergeLoop, List.mem_singleton] at hr
    subst hr
    exact hb r (by simp)
  | cons seg rest ih =>
    intro cur hb hs
    obtain ⟨hcur_le, hs_tail⟩ := List.pairwise_cons.mp hs
    obtain ⟨hseg_le, hs_rest⟩ := List.pairwise_cons.mp hs_tail
    obtain ⟨hcb0, hcb1, hcb2⟩ := hb cur (by simp)
    obtain ⟨hsb0, hsb1, hsb2⟩ := hb seg (by simp)
    by_cases hov : seg.start ≤ cur.«end»
    · have hstep : mergeLoop cur (seg :: rest) =
        mergeLoop ⟨cur.start, max cur.«end» seg.«end»⟩ rest := by
        simp [mergeLoop, hov]
      rw [hstep]
      have h := ih ⟨cur.start, max cur.«end» seg.«end»⟩
        (by
          intro r hr
          rcases List.mem_cons.mp hr with rfl2 | hr
          · subst rfl2
            exact ⟨hcb0, lt_of_lt_of_le hcb1 (le_max_left _ _), max_le hcb2 hsb2⟩
          · exact hb r (by simp [hr]))
        (by
          refine List.pairwise_cons.mpr ⟨?_, hs_rest⟩
          intro r hr
          exact le_trans (hcur_le seg (by simp)) (hseg_le r hr))
      exact ⟨fun r hr => h.1 r hr, h.2.1, h.2.2⟩
    · have hstep : mergeLoop cur (seg :: rest) = cur :: mergeLoop seg rest := by
        simp [mergeLoop, hov]
      rw [hstep]
      have h := ih seg (fun r hr => hb r (by simp [List.mem_cons.mp hr]))
        hs_tail
      refine ⟨?_, ?_, ?_⟩
      · intro r hr
        rcases List.mem_cons.mp hr with rfl2 | hr
        · subst rfl2
          exact le_refl _
        · exact le_trans (hcur_le seg (by simp)) (h.1 r hr)
      · refine List.pairwise_cons.mpr ⟨?_, h.2.1⟩
        intro r hr
        exact lt_of_lt_of_le (lt_of_not_le hov) (h.1 r hr)
      · intro r hr
        rcases List.mem_cons.mp hr with rfl2 | hr
        · subst rfl2
          exact ⟨hcb0, hcb1, hcb2⟩
        · exact h.2.2 r hr

/-- C1: under positive `sampleFps`, non-negative `minSegmentLength`, `preRoll`,
`postRoll`, positive `duration`, and `length / sampleFps ≤ duration`, the
segments returned by `scoresToSegments` are strictly ordered (each start
strictly after the previous end, hence non-overlapping) and each satisfies
`0 ≤ start < end ≤ duration`. -/
theorem scoresToSegments_ordered_bounded (smoothed : List ℚ)
    (sampleFps threshold minSegmentLength preRoll postRoll duration : ℚ)
    (hfps : 0 < sampleFps) (_hmin : 0 ≤ minSegmentLength)
    (hpre : 0 ≤ preRoll) (hpost : 0 ≤ postRoll) (_hdur : 0 < duration)
    (hlen : (smoothed.length : ℚ) / sampleFps ≤ duration) :
    List.Pairwise (fun a b : TimeRange => a.«end» < b.start)
      (scoresToSegments smoothed sampleFps threshold minSegmentLength preRoll postRoll duration) ∧
    ∀ r ∈ scoresToSegments smoothed sampleFps threshold minSegmentLength preRoll postRoll duration,
      0 ≤ r.start ∧ r.start < r.«end» ∧ r.«end» ≤ duration := by
  obtain ⟨hraw_b, hraw_p⟩ := rawRanges_spec smoothed sampleFps threshold duration hfps hlen
  set raw := rawRanges smoothed sampleFps threshold duration with hraw
  set filtered := raw.filter (fun s => minSegmentLength ≤ s.«end» - s.start) with hfil
  have hfil_b : ∀ r ∈ filtered, 0 ≤ r.start ∧ r.start < r.«end» ∧ r.«end» ≤ duration :=
    fun r hr => hraw_b r (List.mem_of_mem_filter hr)
  have hfil_p : List.Pairwise (fun a b : TimeRange => a.«end» < b.start) filtered :=
    hraw_p.sublist (List.filter_sublist raw)
  have hfil_s : List.Pairwise (fun a b : TimeRange => a.start ≤ b.start) filtered := by
    refine List.Pairwise.imp_of_mem ?_ hfil_p
    intro a b ha hb h
    have hb' := hfil_b a ha
    linarith [hb'.2.1]
  set padded := filtered.map (fun s =>
    (⟨max 0 (s.start - preRoll), min duration (s.«end» + postRoll)⟩ : TimeRange)) with hpad
  have hpad_b : ∀ r ∈ padded, 0 ≤ r.start ∧ r.start < r.«end» ∧ r.«end» ≤ duration := by
    intro r hr
    rw [hpad, List.mem_map] at hr
    obtain ⟨s, hs, rfl2⟩ := hr
    obtain ⟨h0, h1, h2⟩ := hfil_b s hs
    subst rfl2
    refine ⟨le_max_left _ _, ?_, min_le_left _ _⟩
    have hle1 : max 0 (s.start - preRoll) ≤ s.start := max_le h0 (by linarith)
    have hle2 : s.«end» ≤ min duration (s.«end» + postRoll) := le_min h2 (by linarith)
    linarith
  have hpad_s : List.Pairwise (fun a b : TimeRange => a.start ≤ b.start) padded := by
    rw [hpad, List.pairwise_map]
    refine List.Pairwise.imp_of_mem ?_ hfil_s
    intro a b _ _ h
    exact max_le_max (le_refl 0) (by linarith)
  show List.Pairwise _ (mergeRanges padded) ∧ ∀ r ∈ mergeRanges padded, _
  cases hpadded : padded with
  | nil => simp [mergeRanges]
  | cons seg rest =>
    rw [hpadded] at hpad_b hpad_s
    have h := mergeLoop_spec duration rest seg hpad_b hpad_s
    exact ⟨h.2.1, h.2.2⟩

/-- C1 witness: scores `[1,1,1,1,0,0,1,1]` at 1 fps, threshold `1/2`,
`minSegmentLength = 2`, `preRoll = postRoll = 1`, `duration = 10`. -/
theorem scoresToSegments_ordered_bounded_witness :
    ((0 : ℚ) < 1 ∧ (0 : ℚ) ≤ 2 ∧ (0 : ℚ) ≤ 1 ∧ (0 : ℚ) < 10 ∧
      (([(1 : ℚ), 1, 1, 1, 0, 0, 1, 1].length : ℚ) / 1 ≤ 10)) ∧
    (List.Pairwise (fun a b : TimeRange => a.«end» < b.start)
      (scoresToSegments [(1 : ℚ), 1, 1, 1, 0, 0, 1, 1] 1 (1/2) 2 1 1 10) ∧
    ∀ r ∈ scoresToSegments [(1 : ℚ), 1, 1, 1, 0, 0, 1, 1] 1 (1/2) 2 1 1 10,
      0 ≤ r.start ∧ r.start < r.«end» ∧ r.«end» ≤ 10) := by
  refine ⟨⟨by norm_num, by norm_num, by norm_num, by norm_num, by norm_num⟩, ?_⟩
  exact scoresToSegments_ordered_bounded [(1 : ℚ), 1, 1, 1, 0, 0, 1, 1] 1 (1/2) 2 1 1 10
    (by norm_num) (by norm_num) (by norm_num) (by norm_num) (by norm_num) (by norm_num)

/-! ### C7 : run semantics of the segmenter -/

theorem rawLoop_all_true_closes_at_duration (sampleFps duration : ℚ) :
    ∀ (l : List Bool), (∀ x ∈ l, x = true) → ∀ (p : ℕ) (s : ℚ),
      rawLoop sampleFps duration l p (some s) = [⟨s, duration⟩] := by
  intro l
  induction l with
  | nil => intro _ p s; simp [rawLoop]
  | cons a rest ih =>
    intro h p s
    have ha : a = true := h a (by simp)
    subst ha
    rw [show rawLoop sampleFps duration (true :: rest) p (some s) =
        rawLoop sampleFps duration rest (p + 1) (some s) from rfl]
    exact ih (fun x hx => h x (by simp [hx])) (p + 1) s

theorem rawLoop_all_true_closes_at_gap (sampleFps duration : ℚ) :
    ∀ (l₁ : List Bool), (∀ x ∈ l₁, x = true) → ∀ (l₂ : List Bool) (p : ℕ) (s : ℚ),
      rawLoop sampleFps duration (l₁ ++ false :: l₂) p (some s) =
        ⟨s, ((p + l₁.length : ℕ) : ℚ) / sampleFps⟩ ::
          rawLoop sampleFps duration l₂ (p + l₁.length + 1) none := by
  intro l₁
  induction l₁ with
  | nil => intro _ l₂ p s; simp [rawLoop]
  | cons a rest ih =>
    intro h l₂ p s
    have ha : a = true := h a (by simp)
    subst ha
    rw [show (true :: rest) ++ false :: l₂ = true :: (rest ++ false :: l₂) from rfl]
    rw [show rawLoop sampleFps duration (true :: (rest ++ false :: l₂)) p (some s) =
        rawLoop sampleFps duration (rest ++ false :: l₂) (p + 1) (some s) from rfl]
    rw [ih (fun x hx => h x (by simp [hx])) l₂ (p + 1) s]
    have hn : p + 1 + rest.length = p + (rest.length + 1) := by omega
    simp [hn]

theorem rawLoop_mem_append (sampleFps duration : ℚ) :
    ∀ (pre : List Bool) (p : ℕ) (st : Option ℚ) (l : List Bool) (r : TimeRange),
      (pre = [] → st = none) → (pre.getLast? = some false ∨ pre = []) →
      r ∈ rawLoop sampleFps duration l (p + pre.length) none →
      r ∈ rawLoop sampleFps duration (pre ++ l) p st := by
  intro pre
  induction pre with
  | nil =>
    intro p st l r hst _ hmem
    rw [hst rfl]
    simpa using hmem
  | cons x pre' ih =>
    intro p st l r _ hlast hmem
    have hlast' : (x :: pre').getLast? = some false := by
      rcases hlast with h | h
      · exact h
      · exact absurd h (by simp)
    cases pre' with
    | nil =>
      have hx : x = false := by simpa using hlast'
      subst hx
      have hmem' : r ∈ rawLoop sampleFps duration l (p + 1) none := by
        simpa using hmem
      cases st with
      | none => simpa [rawLoop] using hmem'
      | some s =>
        rw [show (false :: []) ++ l = false :: l from rfl]
        rw [show rawLoop sampleFps duration (false :: l) p (some s) =
            ⟨s, (p : ℚ) / sampleFps⟩ :: rawLoop sampleFps duration l (p + 1) none from rfl]
        exact List.mem_cons_of_mem _ hmem'
    | cons z pre'' =>
      have hlast'' : (z :: pre'').getLast? = some false := by
        rwa [List.getLast?_cons_cons] at hlast'
      have hmem' : r ∈ rawLoop sampleFps duration l ((p + 1) + (z :: pre'').length) none := by
        have : p + (x :: z :: pre'').length = (p + 1) + (z :: pre'').length := by
          simp; omega
        rwa [this] at hmem
      have happ : (x :: z :: pre'') ++ l = x :: ((z :: pre'') ++ l) := rfl
      rw [happ]
      cases x with
      | true =>
        cases st with
        | none =>
          rw [show rawLoop sampleFps duration (true :: ((z :: pre'') ++ l)) p none =
              rawLoop sampleFps duration ((z :: pre'') ++ l) (p + 1)
                (some ((p : ℚ) / sampleFps)) from rfl]
          exact ih (p + 1) (some ((p : ℚ) / sampleFps)) l r (by simp) (Or.inl hlast'') hmem'
        | some s =>
          rw [show rawLoop sampleFps duration (true :: ((z :: pre'') ++ l)) p (some s) =
              rawLoop sampleFps duration ((z :: pre'') ++ l) (p + 1) (some s) from rfl]
          exact ih (p + 1) (some s) l r (by simp) (Or.inl hlast'') hmem'
      | false =>
        cases st with
        | none =>
          rw [show rawLoop sampleFps duration (false :: ((z :: pre'') ++ l)) p none =
              rawLoop sampleFps duration ((z :: pre'') ++ l) (p + 1) none from rfl]
          exact ih (p + 1) none l r (by simp) (Or.inl hlast'') hmem'
        | some s =>
          rw [show rawLoop sampleFps duration (false :: ((z :: pre'') ++ l)) p (some s) =
              ⟨s, (p : ℚ) / sampleFps⟩ ::
                rawLoop sampleFps duration ((z :: pre'') ++ l) (p + 1) none from rfl]
          exact List.mem_cons_of_mem _
            (ih (p + 1) none l r (by simp) (Or.inl hlast'') hmem')

/-- C7: a frame exactly at the threshold is active (the comparison in
`activeOf` is `threshold ≤ s`, i.e. `>=` in the source, so runs of scores `≥`
threshold are runs of active frames); a maximal run of active indices
`[i0, i1)` with `i0 = pre.length`, `i1 = pre.length + run.length` yields the
raw range `{start: i0/sampleFps, end: i1/sampleFps}` when an inactive index
follows, and `{start: i0/sampleFps, end: duration}` when the run reaches the
end of the array. -/
theorem scoresToSegments_run_semantics (pre run rest : List ℚ)
    (sampleFps threshold duration : ℚ)
    (hrun : run ≠ []) (hact : ∀ x ∈ run, threshold ≤ x)
    (hpre : pre = [] ∨ ∃ l x, pre = l ++ [x] ∧ x < threshold) :
    (rest = [] →
      (⟨(pre.length : ℚ) / sampleFps, duration⟩ : TimeRange) ∈
        rawRanges (pre ++ run ++ rest) sampleFps threshold duration) ∧
    (∀ y t, rest = y :: t → y < threshold →
      (⟨(pre.length : ℚ) / sampleFps, ((pre.length + run.length : ℕ) : ℚ) / sampleFps⟩ :
          TimeRange) ∈
        rawRanges (pre ++ run ++ rest) sampleFps threshold duration) := by
  obtain ⟨r0, run', hr0⟩ := List.exists_cons_of_ne_nil hrun
  have hpre_last : (activeOf pre threshold).getLast? = some false ∨
      activeOf pre threshold = [] := by
    rcases hpre with h | ⟨l, x, hlx, hxlt⟩
    · right; simp [h, activeOf]
    · left
      simp [hlx, activeOf, List.getLast?_concat, decide_eq_false (not_le.mpr hxlt)]
  have hrun_active : ∀ b ∈ activeOf run threshold, b = true := by
    intro b hb
    rw [activeOf, List.mem_map] at hb
    obtain ⟨x, hx, rfl⟩ := hb
    simpa using hact x hx
  have hsplit : activeOf (pre ++ run ++ rest) threshold =
      activeOf pre threshold ++ (activeOf run threshold ++ activeOf rest threshold) := by
    simp [activeOf]
  have hlen_pre : (activeOf pre threshold).length = pre.length := by simp [activeOf]
  constructor
  · intro hrest
    subst hrest
    rw [rawRanges, hsplit]
    apply rawLoop_mem_append sampleFps duration (activeOf pre threshold) 0 none
      _ _ (fun _ => rfl) hpre_last
    rw [hlen_pre]
    have hrunsplit : activeOf run threshold ++ activeOf ([] : List ℚ) threshold =
        true :: activeOf run' threshold := by
      simp [activeOf, hr0]
      simpa using hact r0 (by simp [hr0])
    rw [hrunsplit]
    rw [show rawLoop sampleFps duration (true :: activeOf run' threshold)
        (0 + pre.length) none =
        rawLoop sampleFps duration (activeOf run' threshold) (0 + pre.length + 1)
          (some (((0 + pre.length : ℕ) : ℚ) / sampleFps)) from rfl]
    rw [rawLoop_all_true_closes_at_duration sampleFps duration (activeOf run' threshold)
      (fun b hb => hrun_active b (by simp [activeOf, hr0]; right; simpa [activeOf] using hb))]
    simp
  · intro y t hrest hy
    subst hrest
    rw [rawRanges, hsplit]
    apply rawLoop_mem_append sampleFps duration (activeOf pre threshold) 0 none
      _ _ (fun _ => rfl) hpre_last
    rw [hlen_pre]
    have hrunsplit : activeOf run threshold ++ activeOf (y :: t) threshold =
        true :: (activeOf run' threshold ++ false :: activeOf t threshold) := by
      simp [activeOf, hr0, decide_eq_false (not_le.mpr hy)]
      simpa using hact r0 (by simp [hr0])
    rw [hrunsplit]
    rw [show rawLoop sampleFps duration
        (true :: (activeOf run' threshold ++ false :: activeOf t threshold))
        (0 + pre.length) none =
        rawLoop sampleFps duration (activeOf run' threshold ++ false :: activeOf t threshold)
          (0 + pre.length + 1) (some (((0 + pre.length : ℕ) : ℚ) / sampleFps)) from rfl]
    rw [rawLoop_all_true_closes_at_gap sampleFps duration (activeOf run' threshold)
      (fun b hb => hrun_active b (by simp [activeOf, hr0]; right; simpa [activeOf] using hb))]
    have hlen' : (activeOf run' threshold).length = run'.length := by simp [activeOf]
    have hidx : 0 + pre.length + 1 + (activeOf run' threshold).length =
        pre.length + run.length := by
      rw [hlen', hr0]; simp; omega
    refine List.mem_cons.mpr (Or.inl ?_)
    rw [show 0 + pre.length + 1 + (activeOf run' threshold).length =
          pre.length + run.length from hidx,
        show 0 + pre.length = pre.length from by omega]

/-- C7 witness: a single score exactly at the threshold (3/100) with an
inactive score after it produces the raw range `{0, 1/2}` at 2 fps. -/
theorem scoresToSegments_run_semantics_witness :
    (([(3 : ℚ)/100] ≠ []) ∧ (∀ x ∈ [(3 : ℚ)/100], (3 : ℚ)/100 ≤ x)) ∧
    (⟨0, 1/2⟩ : TimeRange) ∈ rawRanges [(3 : ℚ)/100, 0] 2 (3/100) 10 := by
  refine ⟨⟨by simp, by simp⟩, ?_⟩
  have h := (scoresToSegments_run_semantics [] [(3 : ℚ)/100] [0] 2 (3/100) 10
    (by simp) (by simp) (Or.inl rfl)).2 0 [] rfl (by norm_num)
  simpa using h

/-! ### Remote video downloader (`services/remoteVideoDownloader.ts`)

String manipulation is carried out on `List Char` with structural recursion so
that concrete instances evaluate inside the kernel. -/

def ALLOWED_VIDEO_MIME_TYPES : List String :=
  ["video/mp4", "video/webm", "video/quicktime", "video/x-msvideo"]

def ALLOWED_VIDEO_EXTENSIONS : List String := [".mp4", ".webm", ".mov", ".avi"]

def MAX_REMOTE_VIDEO_BYTES : ℕ := 100 * 1024 * 1024

/-- JavaScript `s.split(c)[0]`: the prefix before the first occurrence of `c`. -/
def takeUntilChar (c : Char) (cs : List Char) : List Char :=
  cs.takeWhile (fun x => x ≠ c)

/-- JavaScript `String.prototype.trim` (whitespace at both ends). -/
def trimChars (cs : List Char) : List Char :=
  ((cs.dropWhile Char.isWhitespace).reverse.dropWhile Char.isWhitespace).reverse

/-- JavaScript `String.prototype.toLowerCase` (ASCII). -/
def toLowerChars (cs : List Char) : List Char := cs.map Char.toLower

/-- JavaScript `String.prototype.includes`. -/
def containsSub (pat : List Char) : List Char → Bool
  | [] => pat.isEmpty
  | c :: rest => pat.isPrefixOf (c :: rest) || containsSub pat rest

/-- Part of a URL pathname after the last `/`. -/
def basenameChars (cs : List Char) : List Char :=
  cs.foldl (fun acc c => if c = '/' then [] else acc ++ [c]) []

/-- Suffix starting at the last `.` of the list, if any. -/
def lastDotSuffix : List Char → Option (List Char)
  | [] => none
  | c :: cs =>
      match lastDotSuffix cs with
      | some s => some s
      | none => if c = '.' then some (c :: cs) else none

/-- Node `path.extname` (for ordinary paths): the suffix of the basename from
its last `.`; a dot in leading position does not count. -/
def extname (p : String) : String :=
  match basenameChars p.data with
  | [] => ""
  | _ :: rest =>
      match lastDotSuffix rest with
      | some s => String.mk s
      | none => ""

/-- `path.extname(url.pathname).toLowerCase()` from `inferExtension`. -/
def extnameLower (p : String) : String := String.mk (toLowerChars (extname p).data)

/-- `inferExtension(url, contentType)` (remoteVideoDownloader.ts lines 26-37).
A `contentType` of `some ""` behaves like `none` here because every sniffing
probe fails on the empty string, matching JavaScript falsiness. -/
def inferExtension (urlPathname : String) (contentType : Option String) : String :=
  if ALLOWED_VIDEO_EXTENSIONS.contains (extnameLower urlPathname) then extnameLower urlPathname
  else
    match contentType with
    | some ct =>
        if containsSub "webm".data ct.data then ".webm"
        else if containsSub "quicktime".data ct.data then ".mov"
        else if containsSub "x-msvideo".data ct.data then ".avi"
        else ".mp4"
    | none => ".mp4"

/-- `contentType ? contentType.split(';')[0].trim().toLowerCase() : ''`. -/
def normalizeContentType : Option String → String
  | some c => String.mk (toLowerChars (trimChars (takeUntilChar ';' c.data)))
  | none => ""

/-- `isAllowedVideo(contentType, ext)` (remoteVideoDownloader.ts lines 39-55). -/
def isAllowedVideo (contentType : Option String) (ext : String) : Bool :=
  if normalizeContentType contentType ≠ "" then
    if "video/".data.isPrefixOf (normalizeContentType contentType).data
        || ALLOWED_VIDEO_MIME_TYPES.contains (normalizeContentType contentType) then true
    else if normalizeContentType contentType = "application/octet-stream"
        && ALLOWED_VIDEO_EXTENSIONS.contains ext then true
    else false
  else ALLOWED_VIDEO_EXTENSIONS.contains ext

/-- Error kinds of `VideoDownloadError` as raised by `downloadVideoFromUrl`
for a terminal response. -/
inductive DownloadErrorKind where
  | httpStatus
  | badType
  | size
deriving DecidableEq, Repr

/-- A terminal (non-redirect) HTTP response as observed by
`downloadVideoFromUrl`: status, `content-type` header, parsed
`content-length` header, and the streamed data chunks. -/
structure HttpResponse where
  statusCode : ℕ
  contentType : Option String
  contentLength : Option ℕ
  chunks : List (List ℕ)
deriving DecidableEq

/-- The `data` listener of `downloadVideoFromUrl`: accumulates `downloaded`,
and on crossing `maxBytes` destroys the streams, deletes the partial file
(the `fail` helper) and settles with the size error.  The second component is
the file remaining in the destination directory (`none` = no file). -/
def streamChunks (maxBytes : ℕ) : List (List ℕ) → ℕ → List ℕ →
    Except DownloadErrorKind Unit × Option (List ℕ)
  | [], _, fileBytes => (.ok (), some fileBytes)
  | chunk :: rest, downloaded, fileBytes =>
      if maxBytes < downloaded + chunk.length then (.error .size, none)
      else streamChunks maxBytes rest (downloaded + chunk.length) (fileBytes ++ chunk)

/-- `declaredLength && declaredLength > maxBytes`: JavaScript truthiness
makes an absent or zero `content-length` skip the check. -/
def declaredLengthExceeds (contentLength : Option ℕ) (maxBytes : ℕ) : Bool :=
  match contentLength with
  | some declaredLength => declaredLength ≠ 0 && decide (maxBytes < declaredLength)
  | none => false

/-- Response handling of `downloadVideoFromUrl` (lines 91-151) for a terminal
response (the 3xx-with-Location recursion is resolved upstream and not
modelled): HTTP-status check, content-type check, declared-length check, then
incremental streaming. -/
def handleResponse (urlPathname : String) (res : HttpResponse) (maxBytes : ℕ) :
    Except DownloadErrorKind Unit × Option (List ℕ) :=
  if 400 ≤ res.statusCode then (.error .httpStatus, none)
  else if ¬ isAllowedVideo res.contentType (inferExtension urlPathname res.contentType) then
    (.error .badType, none)
  else if declaredLengthExceeds res.contentLength maxBytes then (.error .size, none)
  else streamChunks maxBytes res.chunks 0 []

/-! ### C5 : size limit enforcement -/

theorem streamChunks_overrun (maxBytes : ℕ) :
    ∀ (chunks : List (List ℕ)) (downloaded : ℕ) (fileBytes : List ℕ),
      downloaded ≤ maxBytes → maxBytes < downloaded + (chunks.map List.length).sum →
      streamChunks maxBytes chunks downloaded fileBytes = (.error .size, none) := by
  intro chunks
  induction chunks with
  | nil => intro d f h1 h2; simp at h2; omega
  | cons c rest ih =>
    intro d f h1 h2
    by_cases h : maxBytes < d + c.length
    · simp [streamChunks, h]
    · rw [streamChunks, if_neg h]
      refine ih (d + c.length) (f ++ c) (by omega) ?_
      simp at h2
      omega

/-- C5: for a response passing the status and type checks, a declared
`content-length` above `maxBytes` and a streamed byte total above `maxBytes`
each settle `downloadVideoFromUrl` with the size error and leave no file
(the partial file is deleted before rejecting). -/
theorem downloadVideoFromUrl_size_enforced (urlPathname : String) (res : HttpResponse)
    (maxBytes : ℕ) (hstatus : res.statusCode < 400)
    (htype : isAllowedVideo res.contentType (inferExtension urlPathname res.contentType) = true) :
    (∀ declaredLength, res.contentLength = some declaredLength →
      maxBytes < declaredLength →
      handleResponse urlPathname res maxBytes = (.error .size, none)) ∧
    (maxBytes < (res.chunks.map List.length).sum →
      handleResponse urlPathname res maxBytes = (.error .size, none)) := by
  have hs : ¬ 400 ≤ res.statusCode := by omega
  constructor
  · intro declaredLength hdecl hover
    rw [handleResponse, if_neg hs, if_neg (by simp [htype])]
    rw [if_pos (by simp [declaredLengthExceeds, hdecl]; omega)]
  · intro hover
    rw [handleResponse, if_neg hs, if_neg (by simp [htype])]
    by_cases h : declaredLengthExceeds res.contentLength maxBytes = true
    · rw [if_pos h]
    · rw [if_neg h]
      exact streamChunks_overrun maxBytes res.chunks 0 [] (by omega) (by omega)

/-- C5 witness: a 3-byte stream against a 2-byte limit fails with the size
error and leaves no file. -/
theorem downloadVideoFromUrl_size_enforced_witness :
    ((200 : ℕ) < 400 ∧
      isAllowedVideo (some "video/mp4") (inferExtension "/v" (some "video/mp4")) = true ∧
      (2 : ℕ) < (([[(1 : ℕ), 2, 3]] : List (List ℕ)).map List.length).sum) ∧
    handleResponse "/v" ⟨200, some "video/mp4", none, [[1, 2, 3]]⟩ 2 = (.error .size, none) := by
  refine ⟨⟨by norm_num, by decide, by decide⟩, ?_⟩
  exact (downloadVideoFromUrl_size_enforced "/v" ⟨200, some "video/mp4", none, [[1, 2, 3]]⟩ 2
    (by norm_num) (by decide)).2 (by decide)

/-! ### C4 / C9 : content-type acceptance

`inferExtension` only ever returns a member of `ALLOWED_VIDEO_EXTENSIONS`
(the path extension when it is allowed, a sniffed allowed extension, or the
default `.mp4`), and `isAllowedVideo` receives this inferred extension — not
the raw URL path extension.  The octet-stream clause and the
missing-content-type clause are therefore always satisfied. -/

/-- C4: evaluating the code at the failing input.  A response with content
type `application/octet-stream` for the extension-less URL path
`/download/file` is accepted (the inferred extension defaults to `.mp4`,
which is in the allowed list) and the download completes with a stored file,
where the claim demands a type `DownloadError` and no file. -/
theorem octetStream_accepted_without_extension :
    extname "/download/file" = "" ∧
    inferExtension "/download/file" (some "application/octet-stream") = ".mp4" ∧
    isAllowedVideo (some "application/octet-stream")
      (inferExtension "/download/file" (some "application/octet-stream")) = true ∧
    handleResponse "/download/file"
      ⟨200, some "application/octet-stream", some 4, [[1, 2, 3, 4]]⟩ MAX_REMOTE_VIDEO_BYTES =
      (.ok (), some [1, 2, 3, 4]) := by
  refine ⟨by decide, by decide, by decide, rfl⟩

/-- C9 counterexample: with no `Content-Type` header and the extension-less
URL path `/video`, the download is accepted and produces a file, where the
claim asserts rejection with a type `DownloadError`. -/
theorem noContentType_accepted_cex :
    ALLOWED_VIDEO_EXTENSIONS.contains (extnameLower "/video") = false ∧
    inferExtension "/video" none = ".mp4" ∧
    isAllowedVideo none (inferExtension "/video" none) = true ∧
    handleResponse "/video" ⟨200, none, none, [[7]]⟩ 100 = (.ok (), some [7]) := by
  refine ⟨by decide, by decide, by decide, rfl⟩

/-- C9 (amended): with no content type, the inferred extension is the URL
path extension when allowed and defaults to `.mp4` otherwise; since the
default is itself an allowed extension, the type check always accepts the
download regardless of the URL path. -/
theorem noContentType_type_check (urlPathname : String) :
    isAllowedVideo none (inferExtension urlPathname none) = true ∧
    (ALLOWED_VIDEO_EXTENSIONS.contains (extnameLower urlPathname) = false →
      inferExtension urlPathname none = ".mp4") := by
  constructor
  · rw [inferExtension]
    by_cases h : ALLOWED_VIDEO_EXTENSIONS.contains (extnameLower urlPathname) = true
    · rw [if_pos h]
      simpa [isAllowedVideo, normalizeContentType] using h
    · rw [if_neg h]
      decide
  · intro h
    rw [inferExtension, if_neg (by simpa using h)]

/-- C9 amended witness at the concrete path `/clip`. -/
theorem noContentType_type_check_witness :
    (ALLOWED_VIDEO_EXTENSIONS.contains (extnameLower "/clip") = false) ∧
    isAllowedVideo none (inferExtension "/clip" none) = true ∧
    inferExtension "/clip" none = ".mp4" := by
  have h := noContentType_type_check "/clip"
  exact ⟨by decide, h.1, h.2 (by decide)⟩

/-! ### Trim muxer (`trimVideoToSegments`, services/videoTrimmer.ts lines 24-73)

The command construction is embedded as a pure function of the segment list
and of the audio-probe outcome (`hasAudioStream` resolves before the graph is
built); JavaScript number-to-string rendering is abstracted by `render`. -/

/-- The per-segment video chain
`[0:v]trim=start=S:end=E,setpts=PTS-STARTPTS[vI]`. -/
def vChain (render : ℚ → String) (i : ℕ) (seg : TimeRange) : String :=
  "[0:v]trim=start=" ++ render seg.start ++ ":end=" ++ render seg.«end» ++
    ",setpts=PTS-STARTPTS[v" ++ toString i ++ "]"

/-- The per-segment audio chain
`[0:a]atrim=start=S:end=E,asetpts=PTS-STARTPTS[aI]`. -/
def aChain (render : ℚ → String) (i : ℕ) (seg : TimeRange) : String :=
  "[0:a]atrim=start=" ++ render seg.start ++ ":end=" ++ render seg.«end» ++
    ",asetpts=PTS-STARTPTS[a" ++ toString i ++ "]"

/-- The concat input labels for segment `i`: `[vI][aI]` with audio, `[vI]`
without. -/
def concatInput (withAudio : Bool) (i : ℕ) : String :=
  if withAudio then "[v" ++ toString i ++ "][a" ++ toString i ++ "]"
  else "[v" ++ toString i ++ "]"

/-- The ffmpeg invocation assembled by `trimVideoToSegments`: the
`filter_complex` pieces and the `-map` arguments. -/
structure TrimCommand where
  vFilters : List String
  aFilters : List String
  concatInputs : List String
  concatFilter : String
  filterComplex : String
  maps : List String
deriving DecidableEq, Repr

/-- `trimVideoToSegments(inputPath, segments, outputPath)`: an empty segment
list throws before the audio probe or any ffmpeg invocation (the returned
command is the evidence of the single ffmpeg run); otherwise one trim chain
per segment, a concat node with `v=1` and `a=1` iff audio, `[outv]` always
mapped and `[outa]` mapped iff audio. -/
def trimVideoToSegments (render : ℚ → String) (segments : List TimeRange)
    (withAudio : Bool) : Except String TrimCommand :=
  if segments.length = 0 then .error "No segments provided for trimming"
  else
    .ok
      { vFilters := segments.enum.map (fun p => vChain render p.1 p.2)
        aFilters :=
          if withAudio then segments.enum.map (fun p => aChain render p.1 p.2) else []
        concatInputs := segments.enum.map (fun p => concatInput withAudio p.1)
        concatFilter :=
          String.join (segments.enum.map (fun p => concatInput withAudio p.1)) ++
            "concat=n=" ++ toString segments.length ++ ":v=1" ++
            (if withAudio then ":a=1" else ":a=0") ++
            (if withAudio then "[outv][outa]" else "[outv]")
        filterComplex :=
          String.intercalate ";"
            (segments.enum.map (fun p => vChain render p.1 p.2) ++
              (if withAudio then segments.enum.map (fun p => aChain render p.1 p.2) else []) ++
              [String.join (segments.enum.map (fun p => concatInput withAudio p.1)) ++
                "concat=n=" ++ toString segments.length ++ ":v=1" ++
                (if withAudio then ":a=1" else ":a=0") ++
                (if withAudio then "[outv][outa]" else "[outv]")])
        maps := ["[outv]"] ++ (if withAudio then ["[outa]"] else []) }

/-! ### C8 : trim command construction -/

/-- C8: an empty segment list fails with the empty-input error whatever the
audio probe would return (the error precedes the probe and any ffmpeg run);
for a non-empty list the command has one `trim`+`setpts` chain per segment,
always maps `[outv]`, maps `[outa]` iff the input has an audio stream, and
the concat node carries `:a=1` exactly in that case. -/
theorem trimVideoToSegments_filtergraph (render : ℚ → String)
    (segments : List TimeRange) (withAudio : Bool) :
    (∀ audioProbe : Bool,
      trimVideoToSegments render [] audioProbe = .error "No segments provided for trimming") ∧
    (segments ≠ [] → ∃ cmd,
      trimVideoToSegments render segments withAudio = .ok cmd ∧
      cmd.vFilters.length = segments.length ∧
      (∀ i, (h : i < segments.length) →
        cmd.vFilters.getD i "" = vChain render i (segments.get ⟨i, h⟩)) ∧
      cmd.aFilters.length = (if withAudio then segments.length else 0) ∧
      "[outv]" ∈ cmd.maps ∧
      ("[outa]" ∈ cmd.maps ↔ withAudio = true) ∧
      cmd.concatFilter =
        String.join cmd.concatInputs ++
          "concat=n=" ++ toString segments.length ++ ":v=1" ++
          (if withAudio then ":a=1" else ":a=0") ++
          (if withAudio then "[outv][outa]" else "[outv]")) := by
  constructor
  · intro audioProbe
    rfl
  · intro hne
    rw [trimVideoToSegments, if_neg (by simpa using hne)]
    refine ⟨_, rfl, by simp, ?_, by cases withAudio <;> simp, by simp, ?_, rfl⟩
    · intro i h
      have hlen : i < (segments.enum.map
          (fun p : ℕ × TimeRange => vChain render p.1 p.2)).length := by simpa
      rw [List.getD_eq_getElem?_getD, List.getElem?_eq_getElem hlen]
      simp [List.getElem_enum]
    · cases withAudio <;> simp

/-- C8 witness: one segment with audio maps both outputs; without audio only
`[outv]`. -/
theorem trimVideoToSegments_filtergraph_witness :
    ([(⟨0, 1⟩ : TimeRange)] ≠ []) ∧
    (∃ cmd,
      trimVideoToSegments (fun _ => "") [(⟨0, 1⟩ : TimeRange)] true = .ok cmd ∧
      cmd.vFilters.length = [(⟨0, 1⟩ : TimeRange)].length ∧
      (∀ i, (h : i < [(⟨0, 1⟩ : TimeRange)].length) →
        cmd.vFilters.getD i "" = vChain (fun _ => "") i ([(⟨0, 1⟩ : TimeRange)].get ⟨i, h⟩)) ∧
      cmd.aFilters.length = (if true then [(⟨0, 1⟩ : TimeRange)].length else 0) ∧
      "[outv]" ∈ cmd.maps ∧
      ("[outa]" ∈ cmd.maps ↔ true = true) ∧
      cmd.concatFilter =
        String.join cmd.concatInputs ++
          "concat=n=" ++ toString [(⟨0, 1⟩ : TimeRange)].length ++ ":v=1" ++
          (if true then ":a=1" else ":a=0") ++
          (if true then "[outv][outa]" else "[outv]")) :=
  ⟨by simp,
    (trimVideoToSegments_filtergraph (fun _ => "") [(⟨0, 1⟩ : TimeRange)] true).2 (by simp)⟩

/-! ### Media probe (`getVideoMetadata`, video-processing frameExtractor.ts
lines 18-50)

JavaScript numbers that can become `NaN`/`Infinity` through parsing are
modelled as `Option ℚ` with `none` for a non-finite value. -/

/-- Digits-to-number accumulation used by the numeric parsers. -/
def digitsToNat (cs : List Char) : ℕ :=
  cs.foldl (fun acc c => acc * 10 + (c.toNat - ('0').toNat)) 0

/-- JavaScript `parseInt` restricted to plain decimal strings: the leading
digit run, `none` (NaN) when there is none. -/
def jsParseNat (cs : List Char) : Option ℕ :=
  match cs.takeWhile Char.isDigit with
  | [] => none
  | ds => some (digitsToNat ds)

/-- JavaScript `parseFloat` restricted to plain decimal strings. -/
def jsParseFloatQ (cs : List Char) : Option ℚ :=
  match cs.takeWhile Char.isDigit with
  | [] => none
  | intPart =>
      match cs.drop intPart.length with
      | '.' :: frac =>
          some ((digitsToNat intPart : ℚ) +
            (digitsToNat (frac.takeWhile Char.isDigit) : ℚ) /
              ((10 : ℚ) ^ (frac.takeWhile Char.isDigit).length))
      | _ => some (digitsToNat intPart)

/-- JavaScript `String.prototype.split` on a single character. -/
def splitOnChar (c : Char) (cs : List Char) : List (List Char) :=
  cs.foldr (fun x acc =>
    match acc with
    | [] => if x = c then [[], []] else [[x]]
    | h :: t => if x = c then [] :: h :: t else (x :: h) :: t) [[]]

/-- The `r_frame_rate` parsing of `getVideoMetadata`: `"num/den"` via
`parseInt` of both parts, otherwise `parseFloat`; `none` models a non-finite
result (NaN or a division by zero). -/
def parseFrameRate (s : String) : Option ℚ :=
  match splitOnChar '/' s.data with
  | [n, d] =>
      match jsParseNat n, jsParseNat d with
      | some nv, some dv => if dv = 0 then none else some ((nv : ℚ) / dv)
      | _, _ => none
  | _ => jsParseFloatQ s.data

/-- The fields of an ffprobe stream entry read by `getVideoMetadata`. -/
structure FfprobeStream where
  codec_type : String
  width : Option ℕ
  height : Option ℕ
  r_frame_rate : Option String
deriving DecidableEq, Repr

/-- The fields of the ffprobe format section read by `getVideoMetadata`. -/
structure FfprobeFormat where
  duration : Option ℚ
deriving DecidableEq, Repr

/-- The ffprobe output consumed by `getVideoMetadata`. -/
structure FfprobeData where
  streams : List FfprobeStream
  format : FfprobeFormat
deriving DecidableEq, Repr

/-- `VideoMetadata` from frameExtractor.ts; `fps` is `Option ℚ` because the
frame-rate parse can produce a non-finite JavaScript number. -/
structure VideoMetadata where
  duration : ℚ
  width : ℕ
  height : ℕ
  fps : Option ℚ
deriving DecidableEq, Repr

/-- `getVideoMetadata(videoPath)` as a function of the ffprobe outcome:
probe errors are rejected verbatim, a missing video stream rejects with
`No video stream found`, and otherwise missing fields fall back to
`duration = 0` (`|| 0`), `width = 0`, `height = 0` and `fps = 30` (kept when
`r_frame_rate` is absent or empty, both falsy). -/
def getVideoMetadata (probeOutcome : Except String FfprobeData) :
    Except String VideoMetadata :=
  match probeOutcome with
  | .error err => .error err
  | .ok metadata =>
      match metadata.streams.find? (fun s => s.codec_type = "video") with
      | none => .error "No video stream found"
      | some videoStream =>
          .ok
            { duration := metadata.format.duration.getD 0
              width := videoStream.width.getD 0
              height := videoStream.height.getD 0
              fps :=
                match videoStream.r_frame_rate with
                | some s => if s = "" then some 30 else parseFrameRate s
                | none => some 30 }

/-! ### C10 : probe defaults -/

/-- C10: `getVideoMetadata` fails only on a probe error (propagated verbatim)
or when no video stream exists; with a video stream present it resolves, and
a missing format duration gives `duration = 0`, missing stream dimensions
give `width = 0` and `height = 0`, and a missing frame-rate string gives
`fps = 30` — so the returned metadata need not have all-positive fields. -/
theorem getVideoMetadata_defaults :
    (∀ err, getVideoMetadata (.error err) = .error err) ∧
    (∀ pd : FfprobeData, pd.streams.find? (fun s => s.codec_type = "video") = none →
      getVideoMetadata (.ok pd) = .error "No video stream found") ∧
    (∀ (pd : FfprobeData) (vs : FfprobeStream),
      pd.streams.find? (fun s => s.codec_type = "video") = some vs →
      ∃ m, getVideoMetadata (.ok pd) = .ok m ∧
        (pd.format.duration = none → m.duration = 0) ∧
        (vs.width = none → m.width = 0) ∧
        (vs.height = none → m.height = 0) ∧
        (vs.r_frame_rate = none → m.fps = some 30)) := by
  refine ⟨fun err => rfl, ?_, ?_⟩
  · intro pd h
    simp [getVideoMetadata, h]
  · intro pd vs h
    refine ⟨{ duration := pd.format.duration.getD 0
              width := vs.width.getD 0
              height := vs.height.getD 0
              fps :=
                match vs.r_frame_rate with
                | some s => if s = "" then some 30 else parseFrameRate s
                | none => some 30 }, ?_, ?_, ?_, ?_, ?_⟩
    · simp [getVideoMetadata, h]
    · intro h2; simp [h2]
    · intro h2; simp [h2]
    · intro h2; simp [h2]
    · intro h2; simp [h2]

/-- C10 witness: a probe result with one field-less video stream resolves to
`{duration := 0, width := 0, height := 0, fps := 30}`. -/
theorem getVideoMetadata_defaults_witness :
    (({ streams := [⟨"video", none, none, none⟩], format := ⟨none⟩ } : FfprobeData).streams.find?
        (fun s => s.codec_type = "video") = some ⟨"video", none, none, none⟩) ∧
    ∃ m, getVideoMetadata
        (.ok { streams := [⟨"video", none, none, none⟩], format := ⟨none⟩ }) = .ok m ∧
      m.duration = 0 ∧ m.width = 0 ∧ m.height = 0 ∧ m.fps = some 30 := by
  obtain ⟨m, hm, hd, hw, hh, hf⟩ := getVideoMetadata_defaults.2.2
    { streams := [⟨"video", none, none, none⟩], format := ⟨none⟩ }
    ⟨"video", none, none, none⟩ (by rfl)
  exact ⟨by rfl, m, hm, hd rfl, hw rfl, hh rfl, hf rfl⟩

/-! ### Pipeline orchestrator (`runTrimPipeline`, services/trimPipeline.ts
lines 386-427 of the concatenated sources)

The pipeline is embedded as a function of an environment recording the
outcome of each awaited step. -/

/-- `StoredVideo` descriptors as far as the pipeline result needs them. -/
structure StoredVideo where
  name : String
  url : String
deriving DecidableEq, Repr

/-- The error classes that can cross `runTrimPipeline`: the typed
`VideoDownloadError` and `NoSegmentsDetectedError`, the untyped failures of
the probe / extraction / mux / storage steps, and the hypothetical generic
wrapper asserted by the specification (never built by the code). -/
inductive PipelineError where
  | download (message : String)
  | noSegments
  | probeFailure (message : String)
  | extractionFailure (message : String)
  | muxFailure (message : String)
  | storageFailure (message : String)
  | generic (message : String) (inner : PipelineError)
deriving DecidableEq, Repr

/-- Outcomes of the awaited steps of one `runTrimPipeline` invocation. -/
structure PipelineEnv where
  videoPath : Option String
  videoUrl : Option String
  downloadResult : Except PipelineError String
  saveInputResult : Except PipelineError StoredVideo
  detectResult : Except PipelineError (List TimeRange)
  trimResult : Except PipelineError Unit
  saveOutputResult : Except PipelineError StoredVideo

/-- `TrimPipelineResult` as far as the error-flow claims need it. -/
structure TrimPipelineResult where
  segments : List TimeRange
  storedOutput : StoredVideo
  storedInput : StoredVideo
deriving DecidableEq, Repr

/-- `runTrimPipeline(params)`: resolve the input (download when only a URL is
given, otherwise fail with the no-video `VideoDownloadError`), then save the
input, detect segments, fail with `NoSegmentsDetectedError` on an empty list,
trim, save the output.  The `catch` block deletes the partial output and the
downloaded file best-effort and rethrows the error object unchanged. -/
def runTrimPipeline (env : PipelineEnv) : Except PipelineError TrimPipelineResult :=
  match (match env.videoPath with
         | some p => Except.ok p
         | none =>
             match env.videoUrl with
             | some _ => env.downloadResult
             | none => Except.error (PipelineError.download
                 "No video provided. Upload a file or provide a public link.")) with
  | .error e => .error e
  | .ok _ =>
      match env.saveInputResult with
      | .error e => .error e
      | .ok storedInput =>
          match env.detectResult with
          | .error e => .error e
          | .ok segments =>
              if segments.isEmpty then .error .noSegments
              else
                match env.trimResult with
                | .error e => .error e
                | .ok _ =>
                    match env.saveOutputResult with
                    | .error e => .error e
                    | .ok storedOutput => .ok ⟨segments, storedOutput, storedInput⟩

/-- Whether a pipeline outcome is the generic wrapped error the claim
asserts. -/
def isGenericFailure : Except PipelineError TrimPipelineResult → Bool
  | .error (.generic _ _) => true
  | _ => false

/-! ### C3 : error propagation -/

/-- C3 counterexample: a probe failure inside segment detection is rethrown
verbatim by `runTrimPipeline` — the caller receives the original error, not a
generic pipeline error with an inner cause. -/
theorem runTrimPipeline_no_generic_wrapper_cex :
    runTrimPipeline
      { videoPath := some "input.mp4"
        videoUrl := none
        downloadResult := .error (.download "unused")
        saveInputResult := .ok ⟨"input.mp4", "/uploads/inputs/input.mp4"⟩
        detectResult := .error (.probeFailure "ffprobe exited with code 1")
        trimResult := .ok ()
        saveOutputResult := .ok ⟨"out.mp4", "/uploads/processed/out.mp4"⟩ } =
      .error (.probeFailure "ffprobe exited with code 1") ∧
    isGenericFailure
      (runTrimPipeline
        { videoPath := some "input.mp4"
          videoUrl := none
          downloadResult := .error (.download "unused")
          saveInputResult := .ok ⟨"input.mp4", "/uploads/inputs/input.mp4"⟩
          detectResult := .error (.probeFailure "ffprobe exited with code 1")
          trimResult := .ok ()
          saveOutputResult := .ok ⟨"out.mp4", "/uploads/processed/out.mp4"⟩ }) = false :=
  ⟨rfl, rfl⟩

/-- C3 (amended): every failure of a pipeline step propagates to the caller
unchanged — `VideoDownloadError` and `NoSegmentsDetectedError` as the claim
states, but also probe / extraction / mux / storage failures, which are
rethrown after best-effort file cleanup rather than wrapped in a generic
pipeline error (the generic `Failed to trim video` mapping lives in the HTTP
and function callers). -/
theorem runTrimPipeline_error_passthrough (env : PipelineEnv) :
    (env.videoPath = none → env.videoUrl = none →
      runTrimPipeline env = .error (.download
        "No video provided. Upload a file or provide a public link.")) ∧
    (∀ e, env.videoPath = none → (∃ u, env.videoUrl = some u) →
      env.downloadResult = .error e → runTrimPipeline env = .error e) ∧
    (∀ e p, env.videoPath = some p →
      env.saveInputResult = .error e → runTrimPipeline env = .error e) ∧
    (∀ e p si, env.videoPath = some p → env.saveInputResult = .ok si →
      env.detectResult = .error e → runTrimPipeline env = .error e) ∧
    (∀ p si, env.videoPath = some p → env.saveInputResult = .ok si →
      env.detectResult = .ok [] → runTrimPipeline env = .error .noSegments) ∧
    (∀ e p si segs, env.videoPath = some p → env.saveInputResult = .ok si →
      env.detectResult = .ok segs → segs ≠ [] →
      env.trimResult = .error e → runTrimPipeline env = .error e) ∧
    (∀ e p si segs, env.videoPath = some p → env.saveInputResult = .ok si →
      env.detectResult = .ok segs → segs ≠ [] → env.trimResult = .ok () →
      env.saveOutputResult = .error e → runTrimPipeline env = .error e) := by
  refine ⟨?_, ?_, ?_, ?_, ?_, ?_, ?_⟩
  · intro h1 h2
    simp [runTrimPipeline, h1, h2]
  · intro e h1 h2 h3
    obtain ⟨u, hu⟩ := h2
    simp [runTrimPipeline, h1, hu, h3]
  · intro e p h1 h2
    simp [runTrimPipeline, h1, h2]
  · intro e p si h1 h2 h3
    simp [runTrimPipeline, h1, h2, h3]
  · intro p si h1 h2 h3
    simp [runTrimPipeline, h1, h2, h3]
  · intro e p si segs h1 h2 h3 h4 h5
    simp [runTrimPipeline, h1, h2, h3, h4, h5]
  · intro e p si segs h1 h2 h3 h4 h5 h6
    simp [runTrimPipeline, h1, h2, h3, h4, h5, h6]

/-- C3 witness: a storage failure while saving the output propagates
unchanged. -/
theorem runTrimPipeline_error_passthrough_witness :
    runTrimPipeline
      { videoPath := some "in.mp4"
        videoUrl := none
        downloadResult := .ok "in.mp4"
        saveInputResult := .ok ⟨"in.mp4", "/uploads/inputs/in.mp4"⟩
        detectResult := .ok [⟨0, 1⟩]
        trimResult := .ok ()
        saveOutputResult := .error (.storageFailure "blob upload failed") } =
      .error (.storageFailure "blob upload failed") :=
  (runTrimPipeline_error_passthrough _).2.2.2.2.2.2
    (.storageFailure "blob upload failed") "in.mp4" ⟨"in.mp4", "/uploads/inputs/in.mp4"⟩
    [⟨0, 1⟩] rfl rfl rfl (by simp) rfl rfl

end VolleyballAnalytics
